import Mathlib

/-!
Verification of the transaction normalization, identity and categorization
pipeline of the financial-hub repository.

The definitions below are a shallow embedding of the TypeScript source:

* `convertDate`, `parseAmount` (with the JavaScript `parseFloat` and
  first-occurrence `String.replace` they rely on) - the locale parsers;
* `generateId` / `combineFields` with a full executable SHA-256 - the
  identity hasher;
* `transformToTransactions` / `buildRow` - the transaction builder
  (the `try`/`catch` per-row recovery is modelled by `Option`);
* `getCategorizationRules`, `categorizeTransaction`,
  `applyRulesToTransactions` - the categorization engine;
* `mergeTransactions` - the merge/reconciliation engine, whose
  `Array.prototype.sort` call (stable in ECMAScript) is modelled by the
  stable `List.mergeSort`, and whose `new Date(..).getTime()` sort key is
  modelled by `dateTime` (proleptic Gregorian days-from-epoch for ISO
  `YYYY-MM-DD` strings, in milliseconds).

JavaScript numbers are modelled as exact rationals (`ℚ`): every value the
pipeline feeds through `parseFloat` is a finite decimal, and no claim under
verification depends on binary floating-point rounding.
-/

/-- The union type `'income' | 'expense'` of the source. -/
inductive TxType where
  | income : TxType
  | expense : TxType
deriving DecidableEq, Repr

/-- The `CSVRow` interface: the raw row tuple extracted from a statement
file (all fields already trimmed by `parseCSV`). -/
structure CSVRow where
  valorDate : String
  fecha : String
  concepto : String
  movimiento : String
  importe : String
  disponible : String
deriving DecidableEq, Repr

/-- The `ParsedTransaction` interface (canonical transaction record).
Optional fields of the TypeScript interface become `Option`. -/
structure ParsedTransaction where
  id : String
  date : String
  description : String
  descriptionOverride : Option String := none
  amount : ℚ
  category : String
  categoryOverride : Option String := none
  account : String
  type : TxType
deriving DecidableEq, Repr

/-- Value of a digit string, most significant digit first. -/
def digitsToNat (ds : List Char) : Nat :=
  ds.foldl (fun n c => n * 10 + (c.toNat - 48)) 0

/-- Exponent part of a JavaScript float literal: optional sign followed by
digits; an exponent marker with no digits contributes exponent `0` (it is
ignored by `parseFloat`). -/
def parseExpPart (cs : List Char) : Int :=
  match cs with
  | '-' :: rest =>
    let eDigits := rest.takeWhile Char.isDigit
    if eDigits.isEmpty then 0 else -(digitsToNat eDigits : Int)
  | '+' :: rest =>
    let eDigits := rest.takeWhile Char.isDigit
    if eDigits.isEmpty then 0 else (digitsToNat eDigits : Int)
  | _ =>
    let eDigits := cs.takeWhile Char.isDigit
    if eDigits.isEmpty then 0 else (digitsToNat eDigits : Int)

/-- JavaScript `parseFloat`: skip leading whitespace, optional sign, the
longest prefix `digits [. digits] [e|E [sign] digits]`, ignoring any
trailing garbage; `none` models the `NaN` result when no digits are found.
(The `Infinity` literal, which no bank amount ever is, is not modelled.)
The value `sign * (int.frac) * 10^exp` is kept as an exact rational,
assembled as one integer numerator over a power-of-ten denominator. -/
def parseFloatJs (s : String) : Option ℚ :=
  let cs := s.data.dropWhile Char.isWhitespace
  let signedTail : Int × List Char :=
    match cs with
    | '-' :: rest => (-1, rest)
    | '+' :: rest => (1, rest)
    | _ => (1, cs)
  let sign := signedTail.1
  let cs := signedTail.2
  let intDigits := cs.takeWhile Char.isDigit
  let cs2 := cs.dropWhile Char.isDigit
  let fracTail : List Char × List Char :=
    match cs2 with
    | '.' :: rest => (rest.takeWhile Char.isDigit, rest.dropWhile Char.isDigit)
    | _ => ([], cs2)
  let fracDigits := fracTail.1
  let cs3 := fracTail.2
  if intDigits.isEmpty && fracDigits.isEmpty then
    none
  else
    let exp : Int :=
      match cs3 with
      | 'e' :: rest => parseExpPart rest
      | 'E' :: rest => parseExpPart rest
      | _ => 0
    let num : Int :=
      sign * ((digitsToNat intDigits : Int) * 10 ^ fracDigits.length +
        (digitsToNat fracDigits : Int))
    let e10 : Int := exp - (fracDigits.length : Int)
    some (if 0 ≤ e10 then Rat.divInt (num * 10 ^ e10.toNat) 1
          else Rat.divInt num (10 ^ (-e10).toNat))

/-- JavaScript `String.prototype.replace` with a one-character string
pattern replaces only the FIRST occurrence; this is the `replace(',', '.')`
call of `parseAmount`, on the underlying character list. -/
def replaceFirstComma : List Char → List Char
  | [] => []
  | c :: rest => if c = ',' then '.' :: rest else c :: replaceFirstComma rest

/-- `parseAmount` (source lines 60-68): normalize the decimal comma to a
period, then `parseFloat`; `none` models the thrown
`Invalid amount format` error on `NaN`. -/
def parseAmount (amountStr : String) : Option ℚ :=
  let normalized := String.mk (replaceFirstComma amountStr.data)
  parseFloatJs normalized

/-- JavaScript `String.prototype.padStart` with a one-character pad. -/
def padStart (s : String) (n : Nat) (c : Char) : String :=
  String.mk (List.replicate (n - s.length) c) ++ s

/-- JavaScript `String.prototype.split` with a one-character separator, on
the underlying character list: `"" ↦ [""]`, and adjacent separators yield
empty fields, exactly as in ECMAScript. -/
def splitOnChar (sep : Char) : List Char → List (List Char)
  | [] => [[]]
  | c :: rest =>
    match splitOnChar sep rest with
    | [] => [[]]
    | w :: ws => if c = sep then [] :: w :: ws else (c :: w) :: ws

/-- `convertDate` (source lines 48-54): split on `/`, fail when any of the
first three parts is missing or empty (`none` models the thrown
`Invalid date format` error), and reassemble as `YYYY-MM-DD` with
zero-padded month and day.  Parts are NOT checked to be numeric, and any
parts beyond the third are ignored, exactly as in the source. -/
def convertDate (dateStr : String) : Option String :=
  let parts := (splitOnChar '/' dateStr.data).map String.mk
  let day := parts.getD 0 ""
  let month := parts.getD 1 ""
  let year := parts.getD 2 ""
  if day = "" || month = "" || year = "" then none
  else some (year ++ "-" ++ padStart month 2 '0' ++ "-" ++ padStart day 2 '0')

/-! ### SHA-256 (the `createHash('sha256')` of the identity hasher) -/

/-- UTF-8 encoding of one character, as byte values. -/
def utf8Bytes (c : Char) : List Nat :=
  let n := c.toNat
  if n < 128 then [n]
  else if n < 2048 then [192 + n / 64, 128 + n % 64]
  else if n < 65536 then [224 + n / 4096, 128 + (n / 64) % 64, 128 + n % 64]
  else [240 + n / 262144, 128 + (n / 4096) % 64, 128 + (n / 64) % 64, 128 + n % 64]

/-- UTF-8 encoding of a string (Node's default encoding for `update`). -/
def utf8Encode (s : String) : List Nat :=
  s.data.foldr (fun c acc => utf8Bytes c ++ acc) []

/-- Truncation to a 32-bit word. -/
def w32 (n : Nat) : Nat := n % 4294967296

/-- Right rotation of a 32-bit word. -/
def rotr (n x : Nat) : Nat := w32 ((x >>> n) ||| (x <<< (32 - n)))

/-- SHA-256 big sigma-0. -/
def bsig0 (x : Nat) : Nat := rotr 2 x ^^^ rotr 13 x ^^^ rotr 22 x

/-- SHA-256 big sigma-1. -/
def bsig1 (x : Nat) : Nat := rotr 6 x ^^^ rotr 11 x ^^^ rotr 25 x

/-- SHA-256 small sigma-0. -/
def ssig0 (x : Nat) : Nat := rotr 7 x ^^^ rotr 18 x ^^^ (x >>> 3)

/-- SHA-256 small sigma-1. -/
def ssig1 (x : Nat) : Nat := rotr 17 x ^^^ rotr 19 x ^^^ (x >>> 10)

/-- SHA-256 choice function. -/
def chFn (x y z : Nat) : Nat := (x &&& y) ^^^ ((x ^^^ 4294967295) &&& z)

/-- SHA-256 majority function. -/
def majFn (x y z : Nat) : Nat := (x &&& y) ^^^ (x &&& z) ^^^ (y &&& z)

/-- The 64 SHA-256 round constants (FIPS 180-4, written in decimal). -/
def sha256K : List Nat :=
  [1116352408, 1899447441, 3049323471, 3921009573, 961987163, 1508970993,
   2453635748, 2870763221, 3624381080, 310598401, 607225278, 1426881987,
   1925078388, 2162078206, 2614888103, 3248222580, 3835390401, 4022224774,
   264347078, 604807628, 770255983, 1249150122, 1555081692, 1996064986,
   2554220882, 2821834349, 2952996808, 3210313671, 3336571891, 3584528711,
   113926993, 338241895, 666307205, 773529912, 1294757372, 1396182291,
   1695183700, 1986661051, 2177026350, 2456956037, 2730485921, 2820302411,
   3259730800, 3345764771, 3516065817, 3600352804, 4094571909, 275423344,
   430227734, 506948616, 659060556, 883997877, 958139571, 1322822218,
   1537002063, 1747873779, 1955562222, 2024104815, 2227730452, 2361852424,
   2428436474, 2756734187, 3204031479, 3329325298]

/-- The SHA-256 initial hash value (FIPS 180-4, written in decimal). -/
def sha256H0 : List Nat :=
  [1779033703, 3144134277, 1013904242, 2773480762, 1359893119, 2600822924,
   528734635, 1541459225]

/-- A number as `k` big-endian bytes. -/
def beBytes : Nat → Nat → List Nat
  | 0, _ => []
  | k + 1, n => beBytes k (n / 256) ++ [n % 256]

/-- SHA-256 padding: append `0x80`, zeros to 56 mod 64 bytes, then the
message bit length as 8 big-endian bytes. -/
def padMessage (msg : List Nat) : List Nat :=
  let padZeros := (119 - msg.length % 64) % 64
  msg ++ [128] ++ List.replicate padZeros 0 ++ beBytes 8 (msg.length * 8)

/-- Groups bytes into 32-bit big-endian words. -/
def toWords : List Nat → List Nat
  | b0 :: b1 :: b2 :: b3 :: rest => (((b0 * 256 + b1) * 256 + b2) * 256 + b3) :: toWords rest
  | _ => []

/-- Groups a word list into 16-word blocks. -/
def toBlocks : List Nat → List (List Nat)
  | w0 :: w1 :: w2 :: w3 :: w4 :: w5 :: w6 :: w7 ::
    w8 :: w9 :: w10 :: w11 :: w12 :: w13 :: w14 :: w15 :: rest =>
    [w0, w1, w2, w3, w4, w5, w6, w7, w8, w9, w10, w11, w12, w13, w14, w15] :: toBlocks rest
  | _ => []

/-- One extension step of the SHA-256 message schedule: appends
`ssig1 W[i-2] + W[i-7] + ssig0 W[i-15] + W[i-16]` for the current `i`. -/
def scheduleStep (w : List Nat) : List Nat :=
  w ++ [w32 (ssig1 (w.getD (w.length - 2) 0) + w.getD (w.length - 7) 0 +
             ssig0 (w.getD (w.length - 15) 0) + w.getD (w.length - 16) 0)]

/-- Iterates the message-schedule extension. -/
def schedule (w : List Nat) : Nat → List Nat
  | 0 => w
  | k + 1 => scheduleStep (schedule w k)

/-- The eight SHA-256 working variables. -/
structure Sha256State where
  a : Nat
  b : Nat
  c : Nat
  d : Nat
  e : Nat
  f : Nat
  g : Nat
  h : Nat

/-- One SHA-256 compression round. -/
def compressStep (s : Sha256State) (k w : Nat) : Sha256State :=
  let t1 := w32 (s.h + bsig1 s.e + chFn s.e s.f s.g + k + w)
  let t2 := w32 (bsig0 s.a + majFn s.a s.b s.c)
  ⟨w32 (t1 + t2), s.a, s.b, s.c, w32 (s.d + t1), s.e, s.f, s.g⟩

/-- Compression of a 16-word block into the running hash. -/
def compressBlock (hv : List Nat) (block : List Nat) : List Nat :=
  let ws := schedule block 48
  let init : Sha256State :=
    ⟨hv.getD 0 0, hv.getD 1 0, hv.getD 2 0, hv.getD 3 0,
     hv.getD 4 0, hv.getD 5 0, hv.getD 6 0, hv.getD 7 0⟩
  let fin := (sha256K.zip ws).foldl (fun s kw => compressStep s kw.1 kw.2) init
  [w32 (hv.getD 0 0 + fin.a), w32 (hv.getD 1 0 + fin.b), w32 (hv.getD 2 0 + fin.c),
   w32 (hv.getD 3 0 + fin.d), w32 (hv.getD 4 0 + fin.e), w32 (hv.getD 5 0 + fin.f),
   w32 (hv.getD 6 0 + fin.g), w32 (hv.getD 7 0 + fin.h)]

/-- SHA-256 digest of a byte sequence, as bytes. -/
def sha256Bytes (msg : List Nat) : List Nat :=
  let hfin := (toBlocks (toWords (padMessage msg))).foldl compressBlock sha256H0
  hfin.foldr (fun wrd acc => beBytes 4 wrd ++ acc) []

/-- A hex digit character (lowercase). -/
def hexDigit (n : Nat) : Char :=
  if n < 10 then Char.ofNat (48 + n) else Char.ofNat (87 + n)

/-- Lowercase hex string of a byte sequence (`digest('hex')`). -/
def bytesToHex (bs : List Nat) : String :=
  String.mk (bs.foldr (fun b acc => hexDigit (b / 16) :: hexDigit (b % 16) :: acc) [])

/-- `createHash('sha256').update(s).digest('hex')` for a string `s`. -/
def sha256Hex (s : String) : String :=
  bytesToHex (sha256Bytes (utf8Encode s))

/-! ### Identity hasher -/

/-- JavaScript number-to-string (as used by the template literal in
`generateId`) for the exact decimal rationals the pipeline produces:
shortest decimal form with no trailing fractional zeros ("45.3", "0",
"1").  Rationals whose reduced denominator is not of the form `2^a * 5^b`
cannot arise from `parseFloat` output and are rendered as a fraction;
the exponential notation JavaScript uses for magnitudes outside
`[1e-6, 1e21)` is not modelled (no bank amount reaches it). -/
def qToString (q : ℚ) : String :=
  let sign := if q < 0 then "-" else ""
  let n := q.num.natAbs
  let d := q.den
  if d = 1 then sign ++ String.mk (Nat.toDigits 10 n)
  else
    let k := 4 * (Nat.toDigits 10 d).length
    if 10 ^ k % d = 0 then
      let digits := Nat.toDigits 10 (n * (10 ^ k / d))
      let padded := List.replicate (k + 1 - digits.length) '0' ++ digits
      let intPart := padded.take (padded.length - k)
      let fracPart := ((padded.drop (padded.length - k)).reverse.dropWhile (· = '0')).reverse
      sign ++ String.mk intPart ++ "." ++ String.mk fracPart
    else sign ++ String.mk (Nat.toDigits 10 n) ++ "/" ++ String.mk (Nat.toDigits 10 d)

/-- The `|`-joined combination string of `generateId` (source line 40):
the six distinguishing fields, with the amount rendered through
`Math.abs` and the template literal. -/
def combineFields (valorDate fecha description movimiento : String)
    (amount : ℚ) (disponible : String) : String :=
  valorDate ++ "|" ++ fecha ++ "|" ++ description ++ "|" ++ movimiento ++ "|" ++
    qToString |amount| ++ "|" ++ disponible

/-- `generateId` (source lines 30-43): SHA-256 of the combined field
string, hex-encoded, truncated to 12 characters and prefixed `tx_`. -/
def generateId (valorDate fecha description movimiento : String)
    (amount : ℚ) (disponible : String) : String :=
  let combined := combineFields valorDate fecha description movimiento amount disponible
  let hash := sha256Hex combined
  "tx_" ++ String.mk (hash.data.take 12)

/-! ### Transaction builder -/

/-- The body of the per-row `try` block of `transformToTransactions`
(source lines 132-159): convert the value date, convert the secondary
date (falling back to the value date when blank), parse the amount,
derive the type from the sign, keep the absolute value, and derive the
id.  `none` models a thrown (and caught) date or amount format error. -/
def buildRow (row : CSVRow) : Option ParsedTransaction :=
  (convertDate row.valorDate).bind fun date =>
  (if row.fecha = "" then some date else convertDate row.fecha).bind fun fecha =>
  (parseAmount row.importe).bind fun amount =>
  let type := if amount < 0 then TxType.expense else TxType.income
  let absoluteAmount := |amount|
  some {
    id := generateId date fecha row.concepto row.movimiento absoluteAmount row.disponible,
    date := date,
    description := row.concepto,
    amount := absoluteAmount,
    category := "pendiente",
    account := "checking",
    type := type }

/-- `transformToTransactions` (source lines 128-167): each row is pushed
when its `try` block succeeds and silently skipped (after logging) when a
date or amount parse throws — the loop itself never fails. -/
def transformToTransactions : List CSVRow → List ParsedTransaction
  | [] => []
  | row :: rest =>
    match buildRow row with
    | some t => t :: transformToTransactions rest
    | none => transformToTransactions rest

/-! ### Categorization engine -/

/-- `containsAny` of `categorization-rules`: case-insensitive substring
test of any keyword against the description. -/
def containsAny (description : String) (keywords : List String) : Bool :=
  let lowerDescription := description.data.map Char.toLower
  keywords.any fun keyword => decide (keyword.data.map Char.toLower <:+: lowerDescription)

/-- The `CategorizationRule` interface.  The predicate field is called
`match` in the source; that word is reserved in Lean. -/
structure CategorizationRule where
  name : String
  category : String
  matchFn : ParsedTransaction → Bool

/-- `getCategorizationRules`: the fixed, ordered rule list.  Keywords and
order are verbatim from the source; only the Salary rule also requires
`type === 'income'`. -/
def getCategorizationRules : List CategorizationRule :=
  [⟨"Salary", "salary", fun t =>
      t.type == TxType.income &&
        containsAny t.description ["payroll", "salary", "paycheck", "direct deposit"]⟩,
   ⟨"Rent", "rent", fun t => containsAny t.description ["rent", "lease"]⟩,
   ⟨"Groceries", "groceries", fun t =>
      containsAny t.description ["grocery", "market", "supermart", "fresh mart"]⟩,
   ⟨"Dining", "dining", fun t =>
      containsAny t.description ["cafe", "restaurant", "bistro", "diner", "takeout"]⟩,
   ⟨"Transport", "transport", fun t =>
      containsAny t.description ["transit", "metro", "bus", "rail", "uber", "lyft", "fuel", "gas"]⟩,
   ⟨"Utilities", "utilities", fun t =>
      containsAny t.description ["electric", "water", "utility", "internet", "phone"]⟩,
   ⟨"Subscriptions", "subscriptions", fun t =>
      containsAny t.description ["subscription", "streaming", "music", "cloud", "software"]⟩,
   ⟨"Shopping", "shopping", fun t =>
      containsAny t.description ["store", "online order", "retail", "shop"]⟩,
   ⟨"Entertainment", "entertainment", fun t =>
      containsAny t.description ["cinema", "movie", "concert", "theater", "game"]⟩,
   ⟨"Health", "health", fun t =>
      containsAny t.description ["pharmacy", "clinic", "hospital", "dentist"]⟩,
   ⟨"Travel", "travel", fun t =>
      containsAny t.description ["airlines", "hotel", "airbnb", "booking"]⟩,
   ⟨"Education", "education", fun t =>
      containsAny t.description ["course", "tuition", "academy", "workshop"]⟩,
   ⟨"Pets", "pets", fun t => containsAny t.description ["pet", "vet", "pet food"]⟩,
   ⟨"Savings", "savings", fun t =>
      containsAny t.description ["transfer to savings", "savings transfer"]⟩]

/-- The `for` loop of `categorizeTransaction`: first matching rule wins. -/
def firstMatchCategory : List CategorizationRule → ParsedTransaction → String
  | [], _ => "pendiente"
  | rule :: rules, t => if rule.matchFn t then rule.category else firstMatchCategory rules t

/-- `categorizeTransaction`: category of the first matching rule, or the
`pendiente` sentinel when no rule matches. -/
def categorizeTransaction (transaction : ParsedTransaction) : String :=
  firstMatchCategory getCategorizationRules transaction

/-- Both-ends whitespace trim on a character list (JavaScript
`String.prototype.trim`; the ASCII whitespace of `Char.isWhitespace`
covers every character the data contains). -/
def trimChars (cs : List Char) : List Char :=
  ((cs.dropWhile Char.isWhitespace).reverse.dropWhile Char.isWhitespace).reverse

/-- Truthiness of `transaction.categoryOverride && transaction.categoryOverride.trim()`
(source line 360): present, non-empty, and non-empty after trimming. -/
def isNonBlank : Option String → Bool
  | none => false
  | some s => !s.data.isEmpty && !(trimChars s.data).isEmpty

/-- The body of the `map` in `applyRulesToTransactions` (source lines
358-377): keep a transaction with non-blank `categoryOverride` unchanged;
with `preserveManualCategories` also keep any non-`pendiente` transaction
unchanged; otherwise recompute `category`. -/
def applyRule (preserveManualCategories : Bool) (transaction : ParsedTransaction) :
    ParsedTransaction :=
  if isNonBlank transaction.categoryOverride then transaction
  else if preserveManualCategories && !(transaction.category == "pendiente") then transaction
  else { transaction with category := categorizeTransaction transaction }

/-- `applyRulesToTransactions` (source lines 354-378). -/
def applyRulesToTransactions (transactions : List ParsedTransaction)
    (preserveManualCategories : Bool) : List ParsedTransaction :=
  transactions.map (applyRule preserveManualCategories)

/-! ### Merge/reconciliation engine -/

/-- Days from 1970-01-01 of a proleptic-Gregorian civil date (the
arithmetic underlying `Date.getTime` for an ISO date; Lean's `Int`
division is floor division for the positive divisors used here). -/
def daysFromCivil (y m d : Int) : Int :=
  let y := if m ≤ 2 then y - 1 else y
  let era := (if 0 ≤ y then y else y - 399) / 400
  let yoe := y - era * 400
  let mp := (m + 9) % 12
  let doy := (153 * mp + 2) / 5 + d - 1
  let doe := yoe * 365 + yoe / 4 - yoe / 100 + doy
  era * 146097 + doe - 719468

/-- Is `cs` a nonempty digit string? -/
def allDigits (cs : List Char) : Bool := !cs.isEmpty && cs.all Char.isDigit

/-- `new Date(s).getTime()` for strict ISO `YYYY-MM-DD` strings (the form
`convertDate` produces): milliseconds since the Unix epoch at UTC
midnight.  A string that is not a zero-padded in-range date — for which
JavaScript yields `NaN` and the sort comparator's behavior is
unspecified — is mapped to `0`; no claim under verification involves
such a date. -/
def dateTime (s : String) : Int :=
  match splitOnChar '-' s.data with
  | [ys, ms, ds] =>
    if allDigits ys && allDigits ms && allDigits ds &&
        ys.length == 4 && ms.length == 2 && ds.length == 2 then
      let m := digitsToNat ms
      let d := digitsToNat ds
      if 1 ≤ m && m ≤ 12 && 1 ≤ d && d ≤ 31 then
        daysFromCivil (digitsToNat ys) m d * 86400000
      else 0
    else 0
  | _ => 0

/-- The sort comparator of `mergeTransactions` (source lines 224-232):
`(a, b) => dateB - dateA` under a stable sort keeps `a` before `b`
exactly when `dateTime a ≥ dateTime b`. -/
def mergeLe (a b : ParsedTransaction) : Bool :=
  decide (dateTime b.date ≤ dateTime a.date)

/-- The accumulation loop of `mergeTransactions` (source lines 205-215):
push each new transaction whose id is not yet in the id set, also
recording its id so later duplicates within the batch are skipped. -/
def mergeLoop (existingIds : List String) (merged : List ParsedTransaction) :
    List ParsedTransaction → List ParsedTransaction
  | [] => merged
  | transaction :: rest =>
    if existingIds.contains transaction.id then
      mergeLoop existingIds merged rest
    else
      mergeLoop (transaction.id :: existingIds) (merged ++ [transaction]) rest

/-- `mergeTransactions` (source lines 201-235): start from the existing
records, append the deduplicated incoming ones, then stably sort by date
descending (ECMAScript `Array.prototype.sort` is stable; the comparator
returns `0` on equal dates, so ties keep insertion order). -/
def mergeTransactions (existing newTransactions : List ParsedTransaction) :
    List ParsedTransaction :=
  let merged := mergeLoop (existing.map (·.id)) existing newTransactions
  merged.mergeSort mergeLe

/-- Direct (non-accumulator) form of the records `mergeTransactions`
appends: the incoming records whose id is neither among `ids` nor among
the ids of earlier incoming records. -/
def newOnes (ids : List String) : List ParsedTransaction → List ParsedTransaction
  | [] => []
  | t :: ts => if ids.contains t.id then newOnes ids ts else t :: newOnes (t.id :: ids) ts

/-! ### Sample data used by witnesses and counterexamples -/

/-- A transaction carrying a manual category override. -/
def txOverride : ParsedTransaction :=
  { id := "tx_aaaaaaaaaaaa", date := "2024-03-15", description := "SUPERMART MADRID",
    amount := 10, category := "pendiente", categoryOverride := some "travel",
    account := "checking", type := TxType.expense }

/-- A transaction whose description holds keywords of both the Rent rule
(index 1) and the Groceries rule (index 2). -/
def txRentMarket : ParsedTransaction :=
  { id := "tx_bbbbbbbbbbbb", date := "2024-03-15", description := "rent market", amount := 10,
    category := "pendiente", account := "checking", type := TxType.expense }

/-- One of two distinct incoming records sharing an id. -/
def txDupA : ParsedTransaction :=
  { id := "tx_cccccccccccc", date := "2024-03-15", description := "coffee", amount := 3,
    category := "dining", account := "checking", type := TxType.expense }

/-- The other of two distinct incoming records sharing an id (same id as
`txDupA`, different category). -/
def txDupB : ParsedTransaction :=
  { id := "tx_cccccccccccc", date := "2024-03-15", description := "coffee", amount := 3,
    category := "pendiente", account := "checking", type := TxType.expense }

/-- An older transaction (January). -/
def txOld : ParsedTransaction :=
  { id := "tx_dddddddddddd", date := "2024-01-01", description := "old", amount := 1,
    category := "pendiente", account := "checking", type := TxType.expense }

/-- A newer transaction (February). -/
def txNew : ParsedTransaction :=
  { id := "tx_eeeeeeeeeeee", date := "2024-02-01", description := "new", amount := 2,
    category := "pendiente", account := "checking", type := TxType.expense }

/-- A raw row whose value date cannot be converted. -/
def badDateRow : CSVRow := ⟨"bad", "", "SOMETHING", "", "1", ""⟩

/-- A raw row whose amount string parses to exactly zero. -/
def zeroRow : CSVRow := ⟨"15/03/2024", "", "REFUND", "", "0", ""⟩

/-- Equality of every transaction field except `category`. -/
def sameExceptCategory (t u : ParsedTransaction) : Prop :=
  u.id = t.id ∧ u.date = t.date ∧ u.description = t.description ∧
  u.descriptionOverride = t.descriptionOverride ∧ u.amount = t.amount ∧
  u.categoryOverride = t.categoryOverride ∧ u.account = t.account ∧ u.type = t.type

/-! ## Theorems -/

/-- C9: `parseAmount` replaces only the first comma of its input: in
general, with no comma before it, only the first comma becomes a period;
on the multi-comma input `"1,2,3"` it therefore succeeds and returns the
value parsed up to the second comma, `1.2`. -/
theorem parseAmount_first_comma_only :
    (∀ a b : List Char, ',' ∉ a → replaceFirstComma (a ++ ',' :: b) = a ++ '.' :: b) ∧
    parseAmount "1,2,3" = some (6/5) := by
  constructor
  · intro a b ha
    induction a with
    | nil => simp [replaceFirstComma]
    | cons c a ih =>
      simp only [List.mem_cons, not_or] at ha
      have hc : ¬(c = ',') := fun h => ha.1 h.symm
      simp [replaceFirstComma, hc, ih ha.2]
  · with_unfolding_all rfl

/-- Witness for C9: the general first-comma property applied at the
concrete split `"1" ++ "," ++ "2,3"`. -/
theorem parseAmount_first_comma_only_witness :
    replaceFirstComma (['1'] ++ ',' :: ['2', ',', '3']) = ['1'] ++ '.' :: ['2', ',', '3'] :=
  parseAmount_first_comma_only.1 ['1'] ['2', ',', '3'] (by decide)

/-- C10: a raw row whose amount string parses to exactly zero and whose
dates convert is built into a transaction of type `income` (the expense
branch requires a strictly negative amount) with amount `0`. -/
theorem buildRow_zero_amount_income (row : CSVRow)
    (hv : (convertDate row.valorDate).isSome = true)
    (hf : row.fecha = "" ∨ (convertDate row.fecha).isSome = true)
    (ha : parseAmount row.importe = some 0) :
    ∃ t, buildRow row = some t ∧ t.type = TxType.income ∧ t.amount = 0 := by
  obtain ⟨date, hdate⟩ := Option.isSome_iff_exists.mp hv
  have hfecha : ∃ f, (if row.fecha = "" then some date else convertDate row.fecha) = some f := by
    rcases hf with h | h
    · exact ⟨date, by simp [h]⟩
    · by_cases he : row.fecha = ""
      · exact ⟨date, by simp [he]⟩
      · obtain ⟨f, hfv⟩ := Option.isSome_iff_exists.mp h
        exact ⟨f, by simp [he, hfv]⟩
  obtain ⟨f, hfe⟩ := hfecha
  refine ⟨⟨generateId date f row.concepto row.movimiento 0 row.disponible, date,
    row.concepto, none, 0, "pendiente", none, "checking", TxType.income⟩, ?_, rfl, rfl⟩
  unfold buildRow
  rw [hdate, Option.some_bind, hfe, Option.some_bind, ha, Option.some_bind]
  simp [abs_zero, lt_irrefl]

/-- Witness for C10: the builder on a concrete zero-amount row. -/
theorem buildRow_zero_amount_income_witness :
    ∃ t, buildRow zeroRow = some t ∧ t.type = TxType.income ∧ t.amount = 0 :=
  buildRow_zero_amount_income zeroRow (by decide) (Or.inl rfl) (by decide)

/-- The row loop of `transformToTransactions` distributes over
concatenation of row lists. -/
theorem transformToTransactions_append (xs ys : List CSVRow) :
    transformToTransactions (xs ++ ys) =
      transformToTransactions xs ++ transformToTransactions ys := by
  induction xs with
  | nil => rfl
  | cons r rs ih =>
    cases h : buildRow r <;> simp [transformToTransactions, h, ih]

/-- A row with a malformed value date, a malformed non-blank secondary
date, or a malformed amount makes the builder's `try` block fail. -/
theorem buildRow_eq_none_of (row : CSVRow)
    (h : convertDate row.valorDate = none ∨
      (row.fecha ≠ "" ∧ convertDate row.fecha = none) ∨ parseAmount row.importe = none) :
    buildRow row = none := by
  rcases h with h | ⟨hne, h⟩ | h
  · simp [buildRow, h]
  · cases hd : convertDate row.valorDate <;> simp [buildRow, hd, hne, h]
  · cases hd : convertDate row.valorDate <;> simp [buildRow, hd, h]

/-- C7: `transformToTransactions` has partial-failure semantics: a row
whose value date, non-blank secondary date, or amount is malformed is
skipped, and a row whose `try` block succeeds contributes exactly its
transaction, with all other rows processed in order either way — the
batch as a whole never fails. -/
theorem transformToTransactions_partial_failure (pre post : List CSVRow) (row : CSVRow) :
    ((convertDate row.valorDate = none ∨
        (row.fecha ≠ "" ∧ convertDate row.fecha = none) ∨ parseAmount row.importe = none) →
      transformToTransactions (pre ++ row :: post) =
        transformToTransactions pre ++ transformToTransactions post) ∧
    (∀ t, buildRow row = some t →
      transformToTransactions (pre ++ row :: post) =
        transformToTransactions pre ++ t :: transformToTransactions post) := by
  constructor
  · intro h
    rw [transformToTransactions_append]
    simp [transformToTransactions, buildRow_eq_none_of row h]
  · intro t ht
    rw [transformToTransactions_append]
    simp [transformToTransactions, ht]

/-- Witness for C7: a batch holding only a bad-date row transforms to the
empty output rather than failing. -/
theorem transformToTransactions_partial_failure_witness :
    transformToTransactions ([] ++ badDateRow :: []) =
      transformToTransactions [] ++ transformToTransactions [] :=
  (transformToTransactions_partial_failure [] [] badDateRow).1 (Or.inl (by decide))

/-- C1: override sanctity.  Position by position, any transaction whose
`categoryOverride` is present and non-blank is returned by
`applyRulesToTransactions` completely unchanged, for every transaction
list and both values of the `preserveManualCategories` flag; in
particular its `category` is never reassigned. -/
theorem applyRules_override_sanctity (transactions : List ParsedTransaction)
    (preserveManualCategories : Bool) :
    List.Forall₂ (fun t u => isNonBlank t.categoryOverride = true → u = t)
      transactions (applyRulesToTransactions transactions preserveManualCategories) := by
  induction transactions with
  | nil => exact List.Forall₂.nil
  | cons t ts ih => exact List.Forall₂.cons (fun h => by simp [applyRule, h]) ih

/-- Witness for C1: a transaction with the non-blank override `"travel"`
survives a `preserveManualCategories := false` run untouched. -/
theorem applyRules_override_sanctity_witness :
    isNonBlank txOverride.categoryOverride = true ∧
    List.Forall₂ (fun t u => isNonBlank t.categoryOverride = true → u = t)
      [txOverride] (applyRulesToTransactions [txOverride] false) :=
  ⟨by decide, applyRules_override_sanctity [txOverride] false⟩

/-- C8: frame property of the categorization engine.
`applyRulesToTransactions` preserves the length and order of its input,
and position by position only the `category` field can change. -/
theorem applyRules_frame (transactions : List ParsedTransaction)
    (preserveManualCategories : Bool) :
    (applyRulesToTransactions transactions preserveManualCategories).length =
      transactions.length ∧
    List.Forall₂ sameExceptCategory
      transactions (applyRulesToTransactions transactions preserveManualCategories) := by
  constructor
  · simp [applyRulesToTransactions]
  · induction transactions with
    | nil => exact List.Forall₂.nil
    | cons t ts ih =>
      refine List.Forall₂.cons ?_ ih
      show sameExceptCategory t (applyRule preserveManualCategories t)
      unfold applyRule
      split
      · simp [sameExceptCategory]
      · split
        · simp [sameExceptCategory]
        · simp [sameExceptCategory]

/-- If rule `i` of a rule list matches a transaction and no earlier rule
does, the first-match loop returns rule `i`'s category. -/
theorem firstMatchCategory_of_match :
    ∀ (rules : List CategorizationRule) (t : ParsedTransaction) (i : Nat)
      (h : i < rules.length),
      (rules.get ⟨i, h⟩).matchFn t = true →
      ((rules.take i).all fun r => !r.matchFn t) = true →
      firstMatchCategory rules t = (rules.get ⟨i, h⟩).category := by
  intro rules
  induction rules with
  | nil => intro t i h; exact absurd h (by simp)
  | cons rule rules ih =>
    intro t i h hm hprev
    cases i with
    | zero => simp [firstMatchCategory, hm] at hm ⊢; simp [hm]
    | succ j =>
      have hr : rule.matchFn t = false := by
        simp only [List.take_succ_cons, List.all_cons, Bool.and_eq_true, Bool.not_eq_eq_eq_not,
          Bool.not_true] at hprev
        exact hprev.1
      have hrest : ((rules.take j).all fun r => !r.matchFn t) = true := by
        simp only [List.take_succ_cons, List.all_cons, Bool.and_eq_true] at hprev
        exact hprev.2
      simp only [firstMatchCategory, hr, Bool.false_eq_true, if_false]
      exact ih t j (Nat.lt_of_succ_lt_succ h) hm hrest

/-- If no rule of a rule list matches, the first-match loop returns the
`pendiente` sentinel. -/
theorem firstMatchCategory_of_no_match :
    ∀ (rules : List CategorizationRule) (t : ParsedTransaction),
      (rules.all fun r => !r.matchFn t) = true →
      firstMatchCategory rules t = "pendiente" := by
  intro rules
  induction rules with
  | nil => intro t _; rfl
  | cons rule rules ih =>
    intro t hall
    simp only [List.all_cons, Bool.and_eq_true, Bool.not_eq_eq_eq_not, Bool.not_true] at hall
    simp only [firstMatchCategory, hall.1, Bool.false_eq_true, if_false]
    exact ih t (by simpa using hall.2)

/-- C2: first-match semantics of `categorizeTransaction` over the fixed
ordered rule list: when rule `i` matches and no rule before it does, rule
`i`'s category is returned — so when keywords of two rules are present
the earlier rule always wins — and when no rule matches the `pendiente`
sentinel is returned. -/
theorem categorizeTransaction_first_match (t : ParsedTransaction) :
    (∀ i (h : i < getCategorizationRules.length),
      (getCategorizationRules.get ⟨i, h⟩).matchFn t = true →
      ((getCategorizationRules.take i).all fun r => !r.matchFn t) = true →
      categorizeTransaction t = (getCategorizationRules.get ⟨i, h⟩).category) ∧
    ((getCategorizationRules.all fun r => !r.matchFn t) = true →
      categorizeTransaction t = "pendiente") :=
  ⟨fun i h hm hp => firstMatchCategory_of_match getCategorizationRules t i h hm hp,
   fun hn => firstMatchCategory_of_no_match getCategorizationRules t hn⟩

/-- Witness for C2: `"rent market"` matches both the Rent rule (index 1)
and the Groceries rule (index 2); the categorizer returns the earlier
rule's category. -/
theorem categorizeTransaction_first_match_witness :
    (getCategorizationRules.get ⟨1, by decide⟩).matchFn txRentMarket = true ∧
    (getCategorizationRules.get ⟨2, by decide⟩).matchFn txRentMarket = true ∧
    categorizeTransaction txRentMarket = (getCategorizationRules.get ⟨1, by decide⟩).category :=
  ⟨by decide, by decide,
    (categorizeTransaction_first_match txRentMarket).1 1 (by decide) (by decide) (by decide)⟩

/-- The merge comparator is transitive. -/
theorem mergeLe_trans (a b c : ParsedTransaction) :
    mergeLe a b = true → mergeLe b c = true → mergeLe a c = true := by
  simp only [mergeLe, decide_eq_true_eq]
  intro h1 h2
  exact le_trans h2 h1

/-- The merge comparator is total. -/
theorem mergeLe_total (a b : ParsedTransaction) :
    (mergeLe a b || mergeLe b a) = true := by
  simp only [mergeLe, Bool.or_eq_true, decide_eq_true_eq]
  exact (le_total (dateTime a.date) (dateTime b.date)).symm

/-- The accumulation loop of `mergeTransactions` appends exactly the
direct-form `newOnes` selection to its accumulator. -/
theorem mergeLoop_eq_append :
    ∀ (ts : List ParsedTransaction) (ids : List String) (acc : List ParsedTransaction),
      mergeLoop ids acc ts = acc ++ newOnes ids ts := by
  intro ts
  induction ts with
  | nil => intro ids acc; simp [mergeLoop, newOnes]
  | cons t ts ih =>
    intro ids acc
    cases h : ids.contains t.id with
    | true =>
      have h' : t.id ∈ ids := by simpa using h
      simp [mergeLoop, newOnes, h, h', ih]
    | false =>
      have h' : t.id ∉ ids := by simpa using h
      simp [mergeLoop, newOnes, h, h', ih]

/-- Every record selected by `newOnes` is an incoming record whose id is
absent from the initial id set. -/
theorem mem_newOnes :
    ∀ (ts : List ParsedTransaction) (ids : List String) (t : ParsedTransaction),
      t ∈ newOnes ids ts → t ∈ ts ∧ t.id ∉ ids := by
  intro ts
  induction ts with
  | nil => intro ids t ht; simp [newOnes] at ht
  | cons s ts ih =>
    intro ids t ht
    cases h : ids.contains s.id with
    | true =>
      rw [newOnes, if_pos h] at ht
      obtain ⟨h1, h2⟩ := ih ids t ht
      exact ⟨List.mem_cons_of_mem s h1, h2⟩
    | false =>
      have h' : s.id ∉ ids := by simpa using h
      rw [newOnes, if_neg (by simpa using h')] at ht
      rcases List.mem_cons.mp ht with rfl | hmem
      · exact ⟨List.mem_cons_self t ts, h'⟩
      · obtain ⟨h1, h2⟩ := ih (s.id :: ids) t hmem
        exact ⟨List.mem_cons_of_mem s h1, fun hin => h2 (List.mem_cons_of_mem s.id hin)⟩

/-- When every incoming id is already in the id set, nothing is selected. -/
theorem newOnes_eq_nil_of_subset :
    ∀ (ts : List ParsedTransaction) (ids : List String),
      (∀ t ∈ ts, t.id ∈ ids) → newOnes ids ts = [] := by
  intro ts
  induction ts with
  | nil => intro ids _; rfl
  | cons s ts ih =>
    intro ids h
    have hs : ids.contains s.id = true := by
      simpa using h s (List.mem_cons_self s ts)
    rw [newOnes, if_pos hs]
    exact ih ids fun t ht => h t (List.mem_cons_of_mem s ht)

/-- `mergeTransactions` unfolded through the accumulator lemma: a stable
sort of the existing records followed by the deduplicated incoming ones. -/
theorem mergeTransactions_eq_mergeSort (existing incoming : List ParsedTransaction) :
    mergeTransactions existing incoming =
      List.mergeSort (existing ++ newOnes (existing.map (·.id)) incoming) mergeLe := by
  show List.mergeSort (mergeLoop (existing.map (·.id)) existing incoming) mergeLe = _
  rw [mergeLoop_eq_append]

/-- C3 counterexample: two distinct incoming records carrying the same id
(both absent from the empty store) are NOT both added — the merged length
is `1`, not `|E| + |{i in I : id(i) not in ids(E)}| = 2` — so the claim's
length formula fails as stated. -/
theorem mergeTransactions_length_counterexample :
    (mergeTransactions [] [txDupA, txDupB]).length = 1 ∧
    txDupA ≠ txDupB ∧ txDupA.id = txDupB.id ∧
    ([txDupA, txDupB].filter fun t =>
      !(([] : List ParsedTransaction).map (·.id)).contains t.id).length = 2 := by
  refine ⟨?_, by decide, by decide, by decide⟩
  rw [mergeTransactions_eq_mergeSort, List.length_mergeSort]
  decide

/-- C3 as amended: `mergeTransactions` keeps every existing record and
appends exactly the incoming records whose ids are absent both from the
existing store and from earlier incoming records; its length is
`|existing|` plus the number of those records. -/
theorem mergeTransactions_conservation (existing incoming : List ParsedTransaction) :
    (mergeTransactions existing incoming).Perm
      (existing ++ newOnes (existing.map (·.id)) incoming) ∧
    (mergeTransactions existing incoming).length =
      existing.length + (newOnes (existing.map (·.id)) incoming).length ∧
    (∀ t ∈ existing, t ∈ mergeTransactions existing incoming) ∧
    (∀ t ∈ newOnes (existing.map (·.id)) incoming,
      t ∈ incoming ∧ t.id ∉ existing.map (·.id)) := by
  have hperm : (mergeTransactions existing incoming).Perm
      (existing ++ newOnes (existing.map (·.id)) incoming) := by
    rw [mergeTransactions_eq_mergeSort]
    exact List.mergeSort_perm _ _
  refine ⟨hperm, ?_, ?_, ?_⟩
  · rw [hperm.length_eq, List.length_append]
  · intro t ht
    exact hperm.mem_iff.mpr (List.mem_append_left _ ht)
  · intro t ht
    exact mem_newOnes incoming (existing.map (·.id)) t ht

/-- Witness for C3 (amended): an existing record is kept by a concrete
merge. -/
theorem mergeTransactions_conservation_witness :
    txOld ∈ mergeTransactions [txOld] [txNew] :=
  (mergeTransactions_conservation [txOld] [txNew]).2.2.1 txOld (by decide)

/-- C5 counterexample: with an incoming batch whose ids all already occur
in the store (here: an empty batch), the merge still re-sorts the store,
so a store that is not in date-descending order is returned with its
order CHANGED, refuting the claim for arbitrary stores. -/
theorem merge_reimport_counterexample :
    (∀ t ∈ ([] : List ParsedTransaction), t.id ∈ [txOld, txNew].map (·.id)) ∧
    mergeTransactions [txOld, txNew] [] ≠ [txOld, txNew] := by
  refine ⟨by simp, fun h => ?_⟩
  have hp := List.sorted_mergeSort mergeLe_trans mergeLe_total
    ([txOld, txNew] ++ newOnes ([txOld, txNew].map (·.id)) [])
  rw [← mergeTransactions_eq_mergeSort, h] at hp
  have h1 : mergeLe txOld txNew = true :=
    (List.pairwise_cons.mp hp).1 txNew (List.mem_cons_self txNew [])
  exact absurd h1 (by decide)

/-- C5 as amended: when the existing store is already in date-descending
order (as every store the pipeline persists is) and every incoming id
already occurs in it, the merge adds nothing and returns the store
unchanged, order included. -/
theorem merge_reimport_idempotent (existing incoming : List ParsedTransaction)
    (hsorted : List.Pairwise (fun a b => mergeLe a b = true) existing)
    (hids : ∀ t ∈ incoming, t.id ∈ existing.map (·.id)) :
    mergeTransactions existing incoming = existing := by
  rw [mergeTransactions_eq_mergeSort,
    newOnes_eq_nil_of_subset incoming (existing.map (·.id)) hids,
    List.append_nil]
  exact List.mergeSort_of_sorted hsorted

/-- Witness for C5 (amended): re-importing a record already in a
date-descending store changes nothing. -/
theorem merge_reimport_idempotent_witness :
    mergeTransactions [txNew, txOld] [txNew] = [txNew, txOld] :=
  merge_reimport_idempotent [txNew, txOld] [txNew] (by decide) (by decide)

/-- A stable sort by the merge comparator does not reorder records of
equal date value: filtering any single date key commutes with the sort. -/
theorem mergeSort_filter_dateTime (l : List ParsedTransaction) (k : Int) :
    (List.mergeSort l mergeLe).filter (fun t => dateTime t.date == k) =
      l.filter (fun t => dateTime t.date == k) := by
  have hkey : ∀ t ∈ l.filter (fun t => dateTime t.date == k), dateTime t.date = k := by
    intro t ht
    simpa using List.of_mem_filter ht
  have hpair : (l.filter (fun t => dateTime t.date == k)).Pairwise
      (fun a b => mergeLe a b = true) := by
    refine List.pairwise_of_forall_mem_list ?_
    intro a ha b hb
    simp only [mergeLe, decide_eq_true_eq, hkey a ha, hkey b hb]
    exact le_refl k
  have hsub : (l.filter (fun t => dateTime t.date == k)).Sublist
      (List.mergeSort l mergeLe) :=
    List.sublist_mergeSort mergeLe_trans mergeLe_total hpair (List.filter_sublist l)
  have hsub2 : (l.filter (fun t => dateTime t.date == k)).Sublist
      ((List.mergeSort l mergeLe).filter (fun t => dateTime t.date == k)) := by
    have h3 := hsub.filter (fun t => dateTime t.date == k)
    have hself : (l.filter (fun t => dateTime t.date == k)).filter
        (fun t => dateTime t.date == k) = l.filter (fun t => dateTime t.date == k) := by
      apply List.filter_eq_self.mpr
      intro a ha
      exact List.of_mem_filter (p := fun (t : ParsedTransaction) => dateTime t.date == k) ha
    rwa [hself] at h3
  have hlen : ((List.mergeSort l mergeLe).filter (fun t => dateTime t.date == k)).length =
      (l.filter (fun t => dateTime t.date == k)).length :=
    ((List.mergeSort_perm l mergeLe).filter _).length_eq
  exact (hsub2.eq_of_length hlen.symm).symm

/-- C6: the output of `mergeTransactions` is sorted by date descending,
and records of equal date keep their relative order from the pre-sort
sequence — the existing records in their prior order followed by the
newly appended incoming ones — with no further tie-break. -/
theorem mergeTransactions_sorted_stable (existing incoming : List ParsedTransaction) :
    List.Pairwise (fun a b => mergeLe a b = true)
      (mergeTransactions existing incoming) ∧
    ∀ k : Int,
      (mergeTransactions existing incoming).filter (fun t => dateTime t.date == k) =
        (existing ++ newOnes (existing.map (·.id)) incoming).filter
          (fun t => dateTime t.date == k) := by
  constructor
  · rw [mergeTransactions_eq_mergeSort]
    exact List.sorted_mergeSort mergeLe_trans mergeLe_total _
  · intro k
    rw [mergeTransactions_eq_mergeSort]
    exact mergeSort_filter_dateTime _ k

/-- C4 counterexample: two six-field tuples that differ (in the first two
fields) but share the same `|`-joined combination produce the identical
id — the `|` delimiter occurring inside a field defeats injectivity. -/
theorem generateId_injective_counterexample :
    generateId "a|b" "c" "d" "m" 1 "z" = generateId "a" "b|c" "d" "m" 1 "z" ∧
    ("a|b", "c") ≠ ("a", "b|c") := by
  constructor
  · have h : combineFields "a|b" "c" "d" "m" 1 "z" = combineFields "a" "b|c" "d" "m" 1 "z" := by
      with_unfolding_all rfl
    show "tx_" ++ String.mk ((sha256Hex (combineFields "a|b" "c" "d" "m" 1 "z")).data.take 12) =
      "tx_" ++ String.mk ((sha256Hex (combineFields "a" "b|c" "d" "m" 1 "z")).data.take 12)
    rw [h]
  · decide

/-- C4 as amended: `generateId` is a pure function of the `|`-joined
combination of its six fields — identical tuples always yield the
identical id, and more generally any two tuples with the same combined
string (which distinct tuples can produce when a field contains the
delimiter) yield the identical id; distinct tuples need not get distinct
ids. -/
theorem generateId_determined_by_combination
    (v1 f1 d1 m1 b1 v2 f2 d2 m2 b2 : String) (a1 a2 : ℚ)
    (h : combineFields v1 f1 d1 m1 a1 b1 = combineFields v2 f2 d2 m2 a2 b2) :
    generateId v1 f1 d1 m1 a1 b1 = generateId v2 f2 d2 m2 a2 b2 := by
  show "tx_" ++ String.mk ((sha256Hex (combineFields v1 f1 d1 m1 a1 b1)).data.take 12) =
    "tx_" ++ String.mk ((sha256Hex (combineFields v2 f2 d2 m2 a2 b2)).data.take 12)
  rw [h]

/-- Witness for C4 (amended): the determinism theorem applied at the
concrete delimiter-collision pair. -/
theorem generateId_determined_by_combination_witness :
    generateId "a|b" "c" "d" "m" 1 "z" = generateId "a" "b|c" "d" "m" 1 "z" :=
  generateId_determined_by_combination "a|b" "c" "d" "m" "z" "a" "b|c" "d" "m" "z" 1 1
    (by with_unfolding_all rfl)
